import Mathlib

/-!
luacrc32c: CRC-32C checksums for Lua.

A shallow embedding of `src/luacrc32c.c`, the Lua binding of the crc32c library, and
theorems about its two entry points `luacrc32c_value` and `luacrc32c_extend`.

Conventions of the embedding:

* `lua_Integer` is a 64-bit signed integer; it is embedded as `Int`, with `isLuaInteger`
  stating the range. C conversions to unsigned types are written as explicit reductions
  modulo `2^w`.
* The Lua stack of a call is the list of its arguments, index 1 first.
* A table is given by the sequence of key/value pairs in the order in which `lua_next`
  yields them; the C code observes a table only through that traversal.
* The file is embedded as built with `_WIN32` defined (the `htole*` shims are the identity
  and the host is little-endian), the only configuration in which the shims do not call
  themselves.
-/

namespace Luacrc32c

/-! ## The checksum engine -/

/-- Modelled from the spec: the Castagnoli polynomial 0x1EDC6F41 that the specification
names, in its normal (most significant bit first) form. -/
def castagnoliPoly : Nat := 0x1EDC6F41

/-- Modelled from the spec: the bit-reflected Castagnoli polynomial, the constant of the
bit-reflected (right-shifting) computation in the crc32c library. -/
def kPolyReflected : Nat := 0x82F63B78

/-- Modelled from the spec: the value the crc32c library xors into the checksum on entry
to and on exit from `crc32c_extend`. -/
def kCRC32Xor : Nat := 0xFFFFFFFF

/-- Reverses the order of the low 32 bits of `x`. -/
def reflect32 (x : Nat) : Nat :=
  (List.range 32).foldl (fun acc i => acc ||| (((x >>> i) &&& 1) <<< (31 - i))) 0

/-- Modelled from the spec: one bit of the reflected CRC-32C computation of the crc32c
library: shift right, and subtract the polynomial when a one was shifted out. -/
def crcShift (l : Nat) : Nat :=
  if l &&& 1 = 1 then (l >>> 1) ^^^ kPolyReflected else l >>> 1

/-- Modelled from the spec: the crc32c library folding one byte (a `uint8_t`) into its
internal 32-bit state. -/
def crcByteStep (l : Nat) (b : Nat) : Nat :=
  crcShift (crcShift (crcShift (crcShift (crcShift (crcShift (crcShift (crcShift
    (l ^^^ (b % 256)))))))))

/-- Modelled from the spec: `crc32c_extend(crc, data, count)` of the crc32c library, which
`luacrc32c.c` calls and whose code is not among the sources. It is the standard
bit-reflected CRC-32C (Castagnoli polynomial 0x1EDC6F41): the running checksum is
complemented, every byte of `data` is folded in, and the state is complemented again.
`data` holds the `count` bytes read. -/
def crc32c_extend (crc : Nat) (data : List Nat) : Nat :=
  (data.foldl crcByteStep (crc ^^^ kCRC32Xor)) ^^^ kCRC32Xor

/-! ## Lua values and the stack -/

/-- Lua values, as far as the binding tells them apart. A float is represented by the
result of Lua's exact float-to-integer conversion: `some i` when the float has the integer
value `i`, `none` otherwise. A table is the sequence of its entries in `lua_next` order. -/
inductive LuaValue where
  | nil
  | boolean (b : Bool)
  | integer (i : Int)
  | float (exact : Option Int)
  | string (bytes : List Nat)
  | table (entries : List (LuaValue × LuaValue))
  | other

/-- The type tags returned by `lua_type`. -/
inductive LuaType where
  | LUA_TNONE
  | LUA_TNIL
  | LUA_TBOOLEAN
  | LUA_TNUMBER
  | LUA_TSTRING
  | LUA_TTABLE
  | LUA_TOTHER
  deriving DecidableEq, Repr

/-- The range of `lua_Integer`. -/
def isLuaInteger (i : Int) : Prop := -2 ^ 63 ≤ i ∧ i < 2 ^ 63

instance (i : Int) : Decidable (isLuaInteger i) := by
  unfold isLuaInteger; infer_instance

/-- Number of values on the stack. -/
def lua_gettop (L : List LuaValue) : Nat := L.length

/-- The value at a positive stack index. -/
def stackAt (L : List LuaValue) (idx : Nat) : Option LuaValue :=
  if idx = 0 then none else L.get? (idx - 1)

/-- Type tag of the value at a stack index. -/
def lua_type (L : List LuaValue) (idx : Nat) : LuaType :=
  match stackAt L idx with
  | none => .LUA_TNONE
  | some .nil => .LUA_TNIL
  | some (.boolean _) => .LUA_TBOOLEAN
  | some (.integer _) => .LUA_TNUMBER
  | some (.float _) => .LUA_TNUMBER
  | some (.string _) => .LUA_TSTRING
  | some (.table _) => .LUA_TTABLE
  | some .other => .LUA_TOTHER

/-- Whether a value is a number of integer subtype (`lua_isinteger`). -/
def isInteger : LuaValue → Bool
  | .integer _ => true
  | _ => false

/-- Whether the value at a stack index is an integer. -/
def lua_isinteger (L : List LuaValue) (idx : Nat) : Bool :=
  match stackAt L idx with
  | some v => isInteger v
  | none => false

/-- Conversion of a value to `lua_Integer` as `lua_tointeger` and `luaL_checkinteger`
perform it on numbers: integers convert to themselves, floats only when exact. `none`
stands for a failed conversion. -/
def toInteger? : LuaValue → Option Int
  | .integer i => some i
  | .float exact => exact
  | _ => none

/-- The function `luaL_checkinteger`: the integer at a stack index, `none` when it raises
an argument error. -/
def luaL_checkinteger (L : List LuaValue) (idx : Nat) : Option Int :=
  match stackAt L idx with
  | some v => toInteger? v
  | none => none

/-- The function `luaL_checklstring` on a stack slot holding a string: its bytes. -/
def luaL_checklstring (L : List LuaValue) (idx : Nat) : Option (List Nat) :=
  match stackAt L idx with
  | some (.string bytes) => some bytes
  | _ => none

/-- The `lua_next` traversal of the table at a stack index. -/
def tableEntries (L : List LuaValue) (idx : Nat) : List (LuaValue × LuaValue) :=
  match stackAt L idx with
  | some (.table entries) => entries
  | _ => []

/-- What a C function of the binding hands back to Lua: either it returns the two values
on top of the stack (`none` is `nil`; the first is pushed by `lua_pushinteger` or
`lua_pushnil`, the second by `lua_pushstring` or `lua_pushnil`), or it raises a Lua error
through `luaL_error` or an argument check. -/
inductive CallResult where
  | returned (first : Option Int) (second : Option String)
  | raised (msg : String)
  deriving DecidableEq, Repr

/-! ## Fixed-width conversions -/

def INT8_MIN : Int := -128
def UINT8_MAX : Int := 255
def INT16_MIN : Int := -32768
def UINT16_MAX : Int := 65535
def INT32_MIN : Int := -2147483648
def UINT32_MAX : Int := 4294967295
def INT64_MIN : Int := -9223372036854775808
def UINT64_MAX : Int := 18446744073709551615

/-- The C conversion of a `lua_Integer` to an unsigned type of `w` bits. -/
def toUnsigned (w : Nat) (v : Int) : Nat := (v % 2 ^ w).toNat

/-- The shim `htole16` as built with `_WIN32`: the identity. -/
def htole16 (x : Nat) : Nat := x

/-- The shim `htole32` as built with `_WIN32`: the identity. -/
def htole32 (x : Nat) : Nat := x

/-- The shim `htole64` as built with `_WIN32`: the identity. -/
def htole64 (x : Nat) : Nat := x

/-- The bytes `memcpy(raw, &tmp, size)` stores for an unsigned `tmp` on the little-endian
host: the object representation, lowest byte at the lowest address. -/
def memcpyBytes (size : Nat) (tmp : Nat) : List Nat :=
  (List.range size).map (fun i => (tmp >>> (8 * i)) % 256)

/-! ## The binding -/

/-- Control flow at the end of one pass through the body of the `while` loop in `doStuff`:
the function returns, or the loop goes on with the extended checksum. -/
inductive LoopStep where
  | leave (result : CallResult)
  | next (crc : Nat)

/-- The body of the loop `while (lua_next(L,2) != 0)` of `doStuff` for one entry: the key
is at index -2, the value at index -1. -/
def loopBody (elemSize : Int) (key value : LuaValue) (crc : Nat) : LoopStep :=
  if !isInteger key then
    .leave (.returned none (some "Table key is not an Integer."))
  else if (toInteger? key).getD 0 < 1 then
    .leave (.returned none (some "Table key is not greater than zero."))
  else if !isInteger value then
    .leave (.returned none (some "Table value is not an Integer."))
  else
    let v : Int := (toInteger? value).getD 0
    if elemSize = 1 then
      if v < INT8_MIN ∨ v > UINT8_MAX then
        .leave (.returned none (some "Table value exceeds selected 1 byte elemSize."))
      else
        .next (crc32c_extend crc [toUnsigned 8 v])
    else if elemSize = 2 then
      if v < INT16_MIN ∨ v > UINT16_MAX then
        .leave (.returned none (some "Table value exceeds selected 2 byte elemSize."))
      else
        .next (crc32c_extend crc (memcpyBytes 2 (htole16 (toUnsigned 16 v))))
    else if elemSize = 4 then
      if v < INT32_MIN ∨ v > UINT32_MAX then
        .leave (.returned none (some "Table value exceeds selected 4 byte elemSize."))
      else
        .next (crc32c_extend crc (memcpyBytes 4 (htole32 (toUnsigned 32 v))))
    else if elemSize = 8 then
      if v < INT64_MIN ∨ (toUnsigned 64 v : Int) > UINT64_MAX then
        .leave (.returned none (some "Table value exceeds selected 8 byte elemSize."))
      else
        .next (crc32c_extend crc (memcpyBytes 8 (htole64 (toUnsigned 64 v))))
    else
      .leave (.returned none (some "Impossible value for elemSize."))

/-- The loop `while (lua_next(L,2) != 0)` of `doStuff` over the entries still to be
visited: `inl` is an early return from inside the loop, `inr` the checksum with which
the loop ends. -/
def whileLoop (elemSize : Int) : List (LuaValue × LuaValue) → Nat → CallResult ⊕ Nat
  | [], crc => .inr crc
  | (key, value) :: rest, crc =>
    match loopBody elemSize key value crc with
    | .leave result => .inl result
    | .next crc1 => whileLoop elemSize rest crc1

/-- The function `doStuff(L, crc)`: `L` is the stack on entry, `crc` the starting
checksum. -/
def doStuff (L : List LuaValue) (crc : Nat) : CallResult :=
  if lua_gettop L = 2 ∧ lua_type L 1 = .LUA_TNUMBER ∧ lua_type L 2 = .LUA_TTABLE then
    match luaL_checkinteger L 1 with
    | none => .raised "bad argument #1 (number has no integer representation)"
    | some elemSize =>
      if elemSize ≤ 0 ∨ Int.land elemSize (elemSize - 1) ≠ 0
          ∨ toUnsigned 64 elemSize > 8 then
        .returned none (some "elemSize is not 1, 2, 4, or 8")
      else
        match whileLoop elemSize (tableEntries L 2) crc with
        | .inl result => result
        | .inr crc1 => .returned (some (crc1 : Int)) none
  else if lua_gettop L = 1 ∧ lua_type L 1 = .LUA_TSTRING then
    match luaL_checklstring L 1 with
    | none => .raised "bad argument #1 (string expected)"
    | some str => .returned (some (crc32c_extend crc str : Int)) none
  else
    .raised "Wrong signature - neither (elemSize, \x7bdataTable\x7d) nor (string)."

/-- The bytes of a C string literal, as `lua_pushstring` copies them. -/
def cString (s : String) : List Nat := s.toList.map Char.toNat

/-- The function `getCrcFromStack(L, arg)`: the stack it leaves behind and the `uint32_t`
it returns. The `return 2` of the error branch is a return of the checksum 2; the range
test is applied to the value already converted to `uint32_t`. -/
def getCrcFromStack (L : List LuaValue) (arg : Nat) : List LuaValue × Nat :=
  if !lua_isinteger L arg then
    (L ++ [.nil, .string (cString "CRC value is not an Integer.")], 2)
  else
    let crc : Nat := toUnsigned 32 ((luaL_checkinteger L arg).getD 0)
    if (crc : Int) < 0 ∨ (crc : Int) > UINT32_MAX then
      (L ++ [.nil, .string (cString "CRC value is out of range.")], 2)
    else
      (L.dropLast, crc)

/-- The function `luacrc32c_value`: the starting checksum is 0. -/
def luacrc32c_value (L : List LuaValue) : CallResult :=
  doStuff L 0

/-- The function `luacrc32c_extend`: the starting checksum is read from the last
argument. -/
def luacrc32c_extend (L : List LuaValue) : CallResult :=
  if lua_gettop L = 3 ∧ lua_type L 1 = .LUA_TNUMBER ∧ lua_type L 2 = .LUA_TTABLE
      ∧ lua_type L 3 = .LUA_TNUMBER then
    let r := getCrcFromStack L 3
    doStuff r.1 r.2
  else if lua_gettop L = 2 ∧ lua_type L 1 = .LUA_TSTRING ∧ lua_type L 2 = .LUA_TNUMBER then
    let r := getCrcFromStack L 2
    doStuff r.1 r.2
  else
    .raised "Wrong signature - neither (elemSize, \x7bdataTable\x7d, crc) nor (string, crc)."

/-! ## The specification's vocabulary -/

/-- A table entry with an integer key and an integer value. -/
def intEntry (e : Int × Int) : LuaValue × LuaValue := (.integer e.1, .integer e.2)

/-- The range the specification gives for a value at element size `n` bytes: from the
signed minimum to the unsigned maximum. -/
def inRange (n : Nat) (v : Int) : Prop := -(2 : Int) ^ (8 * n - 1) ≤ v ∧ v ≤ 2 ^ (8 * n) - 1

instance (n : Nat) (v : Int) : Decidable (inRange n v) := by
  unfold inRange; infer_instance

/-- The `n`-byte two's-complement bit pattern of an in-range value, read as an unsigned
number: a non-negative value stands for itself, a negative one for `2^(8n) + v`. -/
def twosComplement (n : Nat) (v : Int) : Nat :=
  if 0 ≤ v then v.toNat else (2 ^ (8 * n) + v).toNat

/-- The `n` low-order base-256 digits of `x`, least significant first. -/
def littleEndian : Nat → Nat → List Nat
  | 0, _ => []
  | n + 1, x => x % 256 :: littleEndian n (x / 256)

/-- The canonical byte encoding of the specification: the `n`-byte two's-complement
pattern of `v`, least-significant byte first. -/
def canonicalBytes (n : Nat) (v : Int) : List Nat := littleEndian n (twosComplement n v)

/-- The canonical byte string of a sequence: the encodings of its values, concatenated in
the order of the list. -/
def canonicalString (n : Nat) (t : List (Int × Int)) : List Nat :=
  t.flatMap (fun e => canonicalBytes n e.2)

/-- The error `InvalidElementSize` of the specification, as the binding words it. -/
def InvalidElementSize : String := "elemSize is not 1, 2, 4, or 8"

/-- The error `NonIntegerKey`. -/
def NonIntegerKey : String := "Table key is not an Integer."

/-- The error `NonPositiveKey`. -/
def NonPositiveKey : String := "Table key is not greater than zero."

/-- The error `NonIntegerValue`. -/
def NonIntegerValue : String := "Table value is not an Integer."

/-- The error `ValueOutOfRange(elementSize)`: the message names the element size. -/
def ValueOutOfRange (n : Int) : String :=
  if n = 1 then "Table value exceeds selected 1 byte elemSize."
  else if n = 2 then "Table value exceeds selected 2 byte elemSize."
  else if n = 4 then "Table value exceeds selected 4 byte elemSize."
  else "Table value exceeds selected 8 byte elemSize."

/-- The error `ChecksumOutOfRange`. -/
def ChecksumOutOfRange : String := "CRC value is out of range."

/-- Every message with which the loop of `doStuff` can return early. -/
def loopMessages : List String :=
  [NonIntegerKey, NonPositiveKey, NonIntegerValue, ValueOutOfRange 1, ValueOutOfRange 2,
    ValueOutOfRange 4, ValueOutOfRange 8, "Impossible value for elemSize."]

/-- The entries of a sequence arranged in ascending position order. -/
def sortByKey (t : List (Int × Int)) : List (Int × Int) :=
  t.insertionSort (fun a b => a.1 ≤ b.1)

/-- The validation of one entry in the words of the specification: the key must be an
integer, then positive, the value must be an integer, then in range for the element
size; the first check that fails names the error, `none` means the entry is valid. -/
def entryError (n : Int) (e : LuaValue × LuaValue) : Option String :=
  match e.1 with
  | .integer k =>
    if k < 1 then some NonPositiveKey
    else
      match e.2 with
      | .integer v => if inRange n.toNat v then none else some (ValueOutOfRange n)
      | _ => some NonIntegerValue
  | _ => some NonIntegerKey

/-- Whether a value, when it is an integer, lies in the range of `lua_Integer`. -/
def integerInRange : LuaValue → Bool
  | .integer i => decide (isLuaInteger i)
  | _ => true

/-- Every integer stored in the entry, as key or as value, is a `lua_Integer`. -/
def entryWellFormed (e : LuaValue × LuaValue) : Prop :=
  integerInRange e.1 = true ∧ integerInRange e.2 = true

instance (e : LuaValue × LuaValue) : Decidable (entryWellFormed e) := by
  unfold entryWellFormed; infer_instance

/-- The entries of an array-like table holding the given values at consecutive positions
from `start` on, visited in that order. -/
def arrayFrom (start : Int) : List Int → List (Int × Int)
  | [] => []
  | v :: vs => (start, v) :: arrayFrom (start + 1) vs

/-- An array-like sequence: the values at positions 1, 2, ..., k. -/
def arrayLike (vs : List Int) : List (Int × Int) := arrayFrom 1 vs

/-- The message of the last `else` branch in the loop of `doStuff`. -/
def ImpossibleElementSize : String := "Impossible value for elemSize."

/-- The error a non-integer prior checksum is meant to produce. -/
def ChecksumNotInteger : String := "CRC value is not an Integer."

/-! ## Facts about the checksum engine -/

theorem xor_kCRC32Xor_cancel (x : Nat) : (x ^^^ kCRC32Xor) ^^^ kCRC32Xor = x := by
  rw [Nat.xor_assoc, Nat.xor_self, Nat.xor_zero]

theorem crc32c_extend_nil (crc : Nat) : crc32c_extend crc [] = crc := by
  simp [crc32c_extend, xor_kCRC32Xor_cancel]

theorem crc32c_extend_append (crc : Nat) (a b : List Nat) :
    crc32c_extend (crc32c_extend crc a) b = crc32c_extend crc (a ++ b) := by
  simp [crc32c_extend, xor_kCRC32Xor_cancel, List.foldl_append]

theorem crcShift_lt (l : Nat) (h : l < 2 ^ 32) : crcShift l < 2 ^ 32 := by
  have h1 : l >>> 1 < 2 ^ 32 := by
    rw [Nat.shiftRight_eq_div_pow]
    exact lt_of_le_of_lt (Nat.div_le_self _ _) h
  unfold crcShift
  split
  · exact Nat.xor_lt_two_pow h1 (by decide)
  · exact h1

theorem crcByteStep_lt (l b : Nat) (h : l < 2 ^ 32) : crcByteStep l b < 2 ^ 32 := by
  have hb : b % 256 < 2 ^ 32 := lt_trans (Nat.mod_lt _ (by decide)) (by decide)
  have h0 : l ^^^ (b % 256) < 2 ^ 32 := Nat.xor_lt_two_pow h hb
  unfold crcByteStep
  exact crcShift_lt _ (crcShift_lt _ (crcShift_lt _ (crcShift_lt _ (crcShift_lt _
    (crcShift_lt _ (crcShift_lt _ (crcShift_lt _ h0)))))))

theorem foldl_crcByteStep_lt (data : List Nat) (l : Nat) (h : l < 2 ^ 32) :
    data.foldl crcByteStep l < 2 ^ 32 := by
  induction data generalizing l with
  | nil => simpa using h
  | cons b rest ih => exact ih _ (crcByteStep_lt l b h)

theorem crc32c_extend_lt (crc : Nat) (data : List Nat) (h : crc < 2 ^ 32) :
    crc32c_extend crc data < 2 ^ 32 := by
  unfold crc32c_extend
  exact Nat.xor_lt_two_pow
    (foldl_crcByteStep_lt data _ (Nat.xor_lt_two_pow h (by decide))) (by decide)

theorem toUnsigned_lt (w : Nat) (v : Int) : toUnsigned w v < 2 ^ w := by
  unfold toUnsigned
  have hpos : (0 : Int) < 2 ^ w := by positivity
  have h1 := Int.emod_lt_of_pos v hpos
  have h0 := Int.emod_nonneg v (ne_of_gt hpos)
  have h2 : ((v % 2 ^ w).toNat : Int) < ((2 ^ w : Nat) : Int) := by
    rw [Int.toNat_of_nonneg h0]; push_cast; exact h1
  exact_mod_cast h2

theorem toUnsigned_of_range (w : Nat) (v : Int) (h0 : 0 ≤ v) (h1 : v < 2 ^ w) :
    (toUnsigned w v : Int) = v := by
  unfold toUnsigned
  rw [Int.emod_eq_of_lt h0 h1]
  exact Int.toNat_of_nonneg h0

/-! ## The entry points on the recognised argument shapes -/

theorem value_string (s : List Nat) :
    luacrc32c_value [.string s] = .returned (some (crc32c_extend 0 s : Int)) none := by
  simp [luacrc32c_value, doStuff, lua_gettop, lua_type, stackAt, luaL_checklstring]

theorem extend_string (s : List Nat) (c : Int) :
    luacrc32c_extend [.string s, .integer c]
      = .returned (some (crc32c_extend (toUnsigned 32 c) s : Int)) none := by
  have hlt := toUnsigned_lt 32 c
  have hdead : ¬ ((toUnsigned 32 c : Int) < 0 ∨ (toUnsigned 32 c : Int) > UINT32_MAX) := by
    unfold UINT32_MAX; omega
  simp [luacrc32c_extend, getCrcFromStack, doStuff, lua_gettop, lua_type, stackAt,
    lua_isinteger, isInteger, luaL_checkinteger, toInteger?, luaL_checklstring, hdead]

theorem doStuff_table (e : Int) (t : List (LuaValue × LuaValue)) (crc : Nat) :
    doStuff [.integer e, .table t] crc =
      if e ≤ 0 ∨ Int.land e (e - 1) ≠ 0 ∨ toUnsigned 64 e > 8 then
        .returned none (some "elemSize is not 1, 2, 4, or 8")
      else
        match whileLoop e t crc with
        | .inl result => result
        | .inr crc1 => .returned (some (crc1 : Int)) none := by
  simp [doStuff, lua_gettop, lua_type, stackAt, luaL_checkinteger, toInteger?, tableEntries]

theorem extend_table (e c : Int) (t : List (LuaValue × LuaValue)) :
    luacrc32c_extend [.integer e, .table t, .integer c]
      = doStuff [.integer e, .table t] (toUnsigned 32 c) := by
  have hlt := toUnsigned_lt 32 c
  have hdead : ¬ ((toUnsigned 32 c : Int) < 0 ∨ (toUnsigned 32 c : Int) > UINT32_MAX) := by
    unfold UINT32_MAX; omega
  simp [luacrc32c_extend, getCrcFromStack, lua_gettop, lua_type, stackAt,
    lua_isinteger, isInteger, luaL_checkinteger, toInteger?, hdead]

theorem elemSize_accepted (e : Int) (h : e = 1 ∨ e = 2 ∨ e = 4 ∨ e = 8) :
    ¬ (e ≤ 0 ∨ Int.land e (e - 1) ≠ 0 ∨ toUnsigned 64 e > 8) := by
  rcases h with h | h | h | h <;> subst h <;> decide

/-! ## Encoding of one value -/

theorem memcpyBytes_eq_littleEndian (n x : Nat) : memcpyBytes n x = littleEndian n x := by
  induction n generalizing x with
  | zero => rfl
  | succ n ih =>
    rw [littleEndian, ← ih]
    simp only [memcpyBytes, List.range_succ_eq_map, List.map_cons, List.map_map]
    congr 1
    apply List.map_congr_left
    intro i _
    simp only [Function.comp, Nat.shiftRight_eq_div_pow]
    rw [Nat.div_div_eq_div_mul, show 8 * (i + 1) = 8 + 8 * i by ring, pow_add]
    norm_num

theorem toUnsigned_eq_twosComplement (n : Nat) (v : Int) (h : inRange n v) (hn : 0 < n) :
    toUnsigned (8 * n) v = twosComplement n v := by
  obtain ⟨hlo, hhi⟩ := h
  have hpow : (2 : Int) ^ (8 * n - 1) ≤ 2 ^ (8 * n) :=
    pow_le_pow_right₀ (by norm_num) (by omega)
  unfold toUnsigned twosComplement
  split
  · rename_i h0
    rw [Int.emod_eq_of_lt h0 (by omega)]
  · rename_i h0
    have : v % 2 ^ (8 * n) = 2 ^ (8 * n) + v := by
      rw [← Int.add_emod_self_left]
      exact Int.emod_eq_of_lt (by omega) (by omega)
    rw [this]

theorem canonicalBytes_eq (n : Nat) (v : Int) (h : inRange n v) (hn : 0 < n) :
    canonicalBytes n v = memcpyBytes n (toUnsigned (8 * n) v) := by
  rw [canonicalBytes, memcpyBytes_eq_littleEndian, toUnsigned_eq_twosComplement n v h hn]

theorem loopBody_valid (n : Int) (k v : Int) (crc : Nat)
    (hn : n = 1 ∨ n = 2 ∨ n = 4 ∨ n = 8) (hk : 1 ≤ k) (hv : inRange n.toNat v) :
    loopBody n (.integer k) (.integer v) crc
      = .next (crc32c_extend crc (canonicalBytes n.toNat v)) := by
  have hkey : ¬ k < 1 := by omega
  rcases hn with h | h | h | h <;> subst h
  · change inRange 1 v at hv
    show _ = LoopStep.next (crc32c_extend crc (canonicalBytes 1 v))
    have hr : ¬ (v < INT8_MIN ∨ v > UINT8_MAX) := by
      obtain ⟨h1, h2⟩ := hv; norm_num at h1 h2; unfold INT8_MIN UINT8_MAX; omega
    have hlt : toUnsigned 8 v % 256 = toUnsigned 8 v :=
      Nat.mod_eq_of_lt (toUnsigned_lt 8 v)
    rw [canonicalBytes_eq 1 v hv (by decide)]
    have hone : memcpyBytes 1 (toUnsigned 8 v) = [toUnsigned 8 v] := by
      simp [memcpyBytes, List.range_succ, hlt]
    simp [loopBody, isInteger, toInteger?, hkey, hr, hone]
  · change inRange 2 v at hv
    show _ = LoopStep.next (crc32c_extend crc (canonicalBytes 2 v))
    have hr : ¬ (v < INT16_MIN ∨ v > UINT16_MAX) := by
      obtain ⟨h1, h2⟩ := hv; norm_num at h1 h2; unfold INT16_MIN UINT16_MAX; omega
    rw [canonicalBytes_eq 2 v hv (by decide)]
    simp [loopBody, isInteger, toInteger?, hkey, hr, htole16]
  · change inRange 4 v at hv
    show _ = LoopStep.next (crc32c_extend crc (canonicalBytes 4 v))
    have hr : ¬ (v < INT32_MIN ∨ v > UINT32_MAX) := by
      obtain ⟨h1, h2⟩ := hv; norm_num at h1 h2; unfold INT32_MIN UINT32_MAX; omega
    rw [canonicalBytes_eq 4 v hv (by decide)]
    simp [loopBody, isInteger, toInteger?, hkey, hr, htole32]
  · change inRange 8 v at hv
    show _ = LoopStep.next (crc32c_extend crc (canonicalBytes 8 v))
    have hlt := toUnsigned_lt 64 v
    have hr : ¬ (v < INT64_MIN ∨ (toUnsigned 64 v : Int) > UINT64_MAX) := by
      obtain ⟨h1, h2⟩ := hv; norm_num at h1 h2; unfold INT64_MIN UINT64_MAX; omega
    rw [canonicalBytes_eq 8 v hv (by decide)]
    simp [loopBody, isInteger, toInteger?, hkey, hr, htole64]

theorem whileLoop_valid (n : Int) (t : List (Int × Int)) (crc : Nat)
    (hn : n = 1 ∨ n = 2 ∨ n = 4 ∨ n = 8)
    (hk : ∀ e ∈ t, 1 ≤ e.1) (hv : ∀ e ∈ t, inRange n.toNat e.2) :
    whileLoop n (t.map intEntry) crc
      = .inr (crc32c_extend crc (canonicalString n.toNat t)) := by
  induction t generalizing crc with
  | nil => simp [whileLoop, canonicalString, crc32c_extend_nil]
  | cons e rest ih =>
    have hk1 := hk e (List.mem_cons_self _ _)
    have hv1 := hv e (List.mem_cons_self _ _)
    have ih1 := ih (crc32c_extend crc (canonicalBytes n.toNat e.2))
      (fun x hx => hk x (List.mem_cons_of_mem _ hx))
      (fun x hx => hv x (List.mem_cons_of_mem _ hx))
    simp only [List.map_cons, intEntry, whileLoop, loopBody_valid n e.1 e.2 crc hn hk1 hv1]
    simp only [intEntry] at ih1
    rw [ih1, crc32c_extend_append]
    simp [canonicalString]

theorem doStuff_valid (n : Int) (t : List (Int × Int)) (crc : Nat)
    (hn : n = 1 ∨ n = 2 ∨ n = 4 ∨ n = 8)
    (hk : ∀ e ∈ t, 1 ≤ e.1) (hv : ∀ e ∈ t, inRange n.toNat e.2) :
    doStuff [.integer n, .table (t.map intEntry)] crc
      = .returned (some (crc32c_extend crc (canonicalString n.toNat t) : Int)) none := by
  rw [doStuff_table, if_neg (elemSize_accepted n hn), whileLoop_valid n t crc hn hk hv]

/-! ## Shape of the results -/

theorem loopBody_shape (e : Int) (k v : LuaValue) (crc : Nat) (h : crc < 2 ^ 32) :
    (∃ c1, c1 < 2 ^ 32 ∧ loopBody e k v crc = .next c1) ∨
    (∃ m ∈ loopMessages, loopBody e k v crc = .leave (.returned none (some m))) := by
  unfold loopBody
  dsimp only
  split_ifs
  all_goals first
    | exact Or.inl ⟨_, crc32c_extend_lt crc _ h, rfl⟩
    | exact Or.inr ⟨_, by decide, rfl⟩

theorem whileLoop_shape (e : Int) (t : List (LuaValue × LuaValue)) (crc : Nat)
    (h : crc < 2 ^ 32) :
    (∃ c1, c1 < 2 ^ 32 ∧ whileLoop e t crc = .inr c1) ∨
    (∃ m ∈ loopMessages, whileLoop e t crc = .inl (.returned none (some m))) := by
  induction t generalizing crc with
  | nil => exact Or.inl ⟨crc, h, rfl⟩
  | cons x rest ih =>
    obtain ⟨k, v⟩ := x
    rcases loopBody_shape e k v crc h with ⟨c1, hc1, hb⟩ | ⟨m, hm, hb⟩
    · simpa [whileLoop, hb] using ih c1 hc1
    · exact Or.inr ⟨m, hm, by simp [whileLoop, hb]⟩

theorem elemSize_rejected_iff (e : Int) (he : isLuaInteger e) :
    (e ≤ 0 ∨ Int.land e (e - 1) ≠ 0 ∨ toUnsigned 64 e > 8)
      ↔ ¬ (e = 1 ∨ e = 2 ∨ e = 4 ∨ e = 8) := by
  constructor
  · intro h hn
    exact elemSize_accepted e hn h
  · intro hn
    by_cases h0 : e ≤ 0
    · exact Or.inl h0
    · by_cases h8 : e ≤ 8
      · right; left
        have h1 : 1 ≤ e := by omega
        interval_cases e <;> first | decide | (exfalso; exact hn (by decide))
      · right; right
        obtain ⟨_, hhi⟩ := he
        have : (toUnsigned 64 e : Int) = e :=
          toUnsigned_of_range 64 e (by omega) (by omega)
        omega

theorem value_table (e : Int) (t : List (LuaValue × LuaValue)) :
    luacrc32c_value [.integer e, .table t] = doStuff [.integer e, .table t] 0 := rfl

theorem doStuff_table_shape (e : Int) (t : List (LuaValue × LuaValue)) (crc : Nat)
    (h : crc < 2 ^ 32) :
    (∃ c1 : Nat, c1 < 2 ^ 32 ∧
      doStuff [.integer e, .table t] crc = .returned (some (c1 : Int)) none) ∨
    (∃ m ∈ InvalidElementSize :: loopMessages,
      doStuff [.integer e, .table t] crc = .returned none (some m)) := by
  rw [doStuff_table]
  split
  · exact Or.inr ⟨_, List.mem_cons_self _ _, rfl⟩
  · rcases whileLoop_shape e t crc h with ⟨c1, hc1, hw⟩ | ⟨m, hm, hw⟩
    · exact Or.inl ⟨c1, hc1, by rw [hw]⟩
    · exact Or.inr ⟨m, List.mem_cons_of_mem _ hm, by rw [hw]⟩

theorem doStuff_invalidElementSize_iff (e : Int) (t : List (LuaValue × LuaValue))
    (crc : Nat) (he : isLuaInteger e) (h : crc < 2 ^ 32) :
    doStuff [.integer e, .table t] crc = .returned none (some InvalidElementSize)
      ↔ ¬ (e = 1 ∨ e = 2 ∨ e = 4 ∨ e = 8) := by
  rw [← elemSize_rejected_iff e he, doStuff_table]
  constructor
  · intro hres
    by_contra hacc
    rw [if_neg hacc] at hres
    rcases whileLoop_shape e t crc h with ⟨c1, _, hw⟩ | ⟨m, hm, hw⟩
    · rw [hw] at hres
      simp at hres
    · rw [hw] at hres
      have hmem : InvalidElementSize ∈ loopMessages := by
        have : m = InvalidElementSize := by simpa using hres
        exact this ▸ hm
      exact absurd hmem (by decide)
  · intro hrej
    rw [if_pos hrej]
    rfl

theorem loopBody_out_of_range (n k v : Int) (crc : Nat)
    (hn : n = 1 ∨ n = 2 ∨ n = 4) (hk : 1 ≤ k) (hv : ¬ inRange n.toNat v) :
    loopBody n (.integer k) (.integer v) crc
      = .leave (.returned none (some (ValueOutOfRange n))) := by
  have hkey : ¬ k < 1 := by omega
  rcases hn with h | h | h <;> subst h
  · change ¬ inRange 1 v at hv
    have hr : v < INT8_MIN ∨ v > UINT8_MAX := by
      unfold inRange at hv; norm_num at hv; unfold INT8_MIN UINT8_MAX; omega
    simp [loopBody, isInteger, toInteger?, hkey, hr, ValueOutOfRange]
  · change ¬ inRange 2 v at hv
    have hr : v < INT16_MIN ∨ v > UINT16_MAX := by
      unfold inRange at hv; norm_num at hv; unfold INT16_MIN UINT16_MAX; omega
    simp [loopBody, isInteger, toInteger?, hkey, hr, ValueOutOfRange]
  · change ¬ inRange 4 v at hv
    have hr : v < INT32_MIN ∨ v > UINT32_MAX := by
      unfold inRange at hv; norm_num at hv; unfold INT32_MIN UINT32_MAX; omega
    simp [loopBody, isInteger, toInteger?, hkey, hr, ValueOutOfRange]

/-! ## Early returns of the loop -/

theorem loopBody_nonInteger_key (n : Int) (k v : LuaValue) (crc : Nat)
    (h : isInteger k = false) :
    loopBody n k v crc = .leave (.returned none (some NonIntegerKey)) := by
  simp [loopBody, h, NonIntegerKey]

theorem loopBody_nonPositive_key (n i : Int) (v : LuaValue) (crc : Nat) (h : i < 1) :
    loopBody n (.integer i) v crc = .leave (.returned none (some NonPositiveKey)) := by
  simp [loopBody, isInteger, toInteger?, h, NonPositiveKey]

theorem whileLoop_after_valid (n : Int) (pre : List (Int × Int))
    (rest : List (LuaValue × LuaValue)) (crc : Nat)
    (hn : n = 1 ∨ n = 2 ∨ n = 4 ∨ n = 8)
    (hk : ∀ e ∈ pre, 1 ≤ e.1) (hv : ∀ e ∈ pre, inRange n.toNat e.2) :
    whileLoop n (pre.map intEntry ++ rest) crc
      = whileLoop n rest (crc32c_extend crc (canonicalString n.toNat pre)) := by
  induction pre generalizing crc with
  | nil => simp [canonicalString, crc32c_extend_nil]
  | cons e more ih =>
    have hk1 := hk e (List.mem_cons_self _ _)
    have hv1 := hv e (List.mem_cons_self _ _)
    have ih1 := ih (crc32c_extend crc (canonicalBytes n.toNat e.2))
      (fun x hx => hk x (List.mem_cons_of_mem _ hx))
      (fun x hx => hv x (List.mem_cons_of_mem _ hx))
    have hstep : ∀ l : List (LuaValue × LuaValue),
        whileLoop n (intEntry e :: l) crc
          = whileLoop n l (crc32c_extend crc (canonicalBytes n.toNat e.2)) := by
      intro l
      simp only [intEntry, whileLoop, loopBody_valid n e.1 e.2 crc hn hk1 hv1]
    rw [List.map_cons, List.cons_append, hstep, ih1, crc32c_extend_append]
    simp [canonicalString]

theorem whileLoop_leaves (n : Int) (t : List (LuaValue × LuaValue)) (crc : Nat)
    (h : crc < 2 ^ 32)
    (hbad : ∃ e ∈ t, ∀ c, ∃ m, loopBody n e.1 e.2 c = .leave (.returned none (some m))) :
    ∃ m, whileLoop n t crc = .inl (.returned none (some m)) := by
  induction t generalizing crc with
  | nil => obtain ⟨e, he, _⟩ := hbad; simp at he
  | cons x rest ih =>
    obtain ⟨k, v⟩ := x
    rcases loopBody_shape n k v crc h with ⟨c1, hc1, hb⟩ | ⟨m, _, hb⟩
    · obtain ⟨e, he, hleave⟩ := hbad
      rcases List.mem_cons.mp he with heq | hmem
      · subst heq
        obtain ⟨m, hm⟩ := hleave crc
        rw [hb] at hm
        cases hm
      · simpa [whileLoop, hb] using ih c1 hc1 ⟨e, hmem, hleave⟩
    · exact ⟨m, by simp [whileLoop, hb]⟩

theorem loopBody_nonInteger_value (n i : Int) (v : LuaValue) (crc : Nat) (hi : 1 ≤ i)
    (h : isInteger v = false) :
    loopBody n (.integer i) v crc = .leave (.returned none (some NonIntegerValue)) := by
  have hkey : ¬ i < 1 := by omega
  have hk1 : isInteger (.integer i) = true := rfl
  have hk2 : (toInteger? (.integer i)).getD 0 = i := rfl
  simp only [loopBody, hk1, hk2, h]
  simp [hkey, NonIntegerValue]

theorem loopBody_entryError_some (n : Int) (e : LuaValue × LuaValue) (crc : Nat)
    (msg : String) (hn : n = 1 ∨ n = 2 ∨ n = 4 ∨ n = 8) (hwf : entryWellFormed e)
    (h : entryError n e = some msg) :
    loopBody n e.1 e.2 crc = .leave (.returned none (some msg)) := by
  obtain ⟨k, v⟩ := e
  cases k with
  | integer i =>
    by_cases hi : i < 1
    · have : msg = NonPositiveKey := by simpa [entryError, hi] using h.symm
      subst this
      exact loopBody_nonPositive_key n i v crc hi
    · cases v with
      | integer w =>
        by_cases hr : inRange n.toNat w
        · simp [entryError, hi, hr] at h
        · have : msg = ValueOutOfRange n := by simpa [entryError, hi, hr] using h.symm
          subst this
          rcases hn with h1 | h2 | h4 | h8
          · exact loopBody_out_of_range n i w crc (Or.inl h1) (by omega) hr
          · exact loopBody_out_of_range n i w crc (Or.inr (Or.inl h2)) (by omega) hr
          · exact loopBody_out_of_range n i w crc (Or.inr (Or.inr h4)) (by omega) hr
          · exfalso
            subst h8
            have hw : isLuaInteger w := by
              have := hwf.2
              simpa [integerInRange] using this
            apply hr
            change inRange 8 w
            obtain ⟨hlo, hhi⟩ := hw
            unfold inRange
            norm_num
            constructor <;> omega
      | _ =>
        have : msg = NonIntegerValue := by simpa [entryError, hi] using h.symm
        subst this
        exact loopBody_nonInteger_value n i _ crc (by omega) rfl
  | _ =>
    have : msg = NonIntegerKey := by simpa [entryError] using h.symm
    subst this
    exact loopBody_nonInteger_key n _ v crc rfl

theorem loopBody_entryError_none (n : Int) (e : LuaValue × LuaValue) (crc : Nat)
    (hn : n = 1 ∨ n = 2 ∨ n = 4 ∨ n = 8) (h : entryError n e = none) :
    ∃ c1, loopBody n e.1 e.2 crc = .next c1 := by
  obtain ⟨k, v⟩ := e
  cases k with
  | integer i =>
    by_cases hi : i < 1
    · simp [entryError, hi] at h
    · cases v with
      | integer w =>
        by_cases hr : inRange n.toNat w
        · exact ⟨_, loopBody_valid n i w crc hn (by omega) hr⟩
        · simp [entryError, hi, hr] at h
      | _ => simp [entryError, hi] at h
  | _ => simp [entryError] at h

theorem whileLoop_first_failure (n : Int) (pre post : List (LuaValue × LuaValue))
    (bad : LuaValue × LuaValue) (msg : String) (crc : Nat)
    (hn : n = 1 ∨ n = 2 ∨ n = 4 ∨ n = 8) (hwf : entryWellFormed bad)
    (hpre : ∀ x ∈ pre, entryError n x = none) (hbad : entryError n bad = some msg) :
    whileLoop n (pre ++ bad :: post) crc = .inl (.returned none (some msg)) := by
  induction pre generalizing crc with
  | nil =>
    obtain ⟨k, v⟩ := bad
    have := loopBody_entryError_some n (k, v) crc msg hn hwf hbad
    simp only at this
    simp [whileLoop, this]
  | cons x more ih =>
    obtain ⟨k, v⟩ := x
    obtain ⟨c1, hc1⟩ := loopBody_entryError_none n (k, v) crc hn
      (hpre (k, v) (List.mem_cons_self _ _))
    simp only at hc1
    have := ih c1 (fun y hy => hpre y (List.mem_cons_of_mem _ hy))
    simpa [whileLoop, hc1] using this

/-! ## Array-like sequences -/

theorem arrayFrom_keys (start : Int) (vs : List Int) :
    ∀ e ∈ arrayFrom start vs, start ≤ e.1 := by
  induction vs generalizing start with
  | nil => intro e he; simp [arrayFrom] at he
  | cons v rest ih =>
    intro e he
    rcases List.mem_cons.mp he with h | h
    · subst h; exact le_refl _
    · have := ih (start + 1) e h
      omega

theorem arrayFrom_values (start : Int) (vs : List Int) :
    (arrayFrom start vs).map Prod.snd = vs := by
  induction vs generalizing start with
  | nil => rfl
  | cons v rest ih => simp [arrayFrom, ih]

theorem canonicalString_values (n : Nat) (t : List (Int × Int)) :
    canonicalString n t = (t.map Prod.snd).flatMap (canonicalBytes n) := by
  induction t with
  | nil => rfl
  | cons e rest ih =>
    simp only [canonicalString, List.flatMap_cons, List.map_cons] at ih ⊢
    rw [ih]

theorem canonicalString_arrayLike (n : Nat) (vs : List Int) :
    canonicalString n (arrayLike vs) = vs.flatMap (canonicalBytes n) := by
  rw [canonicalString_values, arrayLike, arrayFrom_values]

theorem arrayLike_valid (n : Nat) (vs : List Int) (hv : ∀ v ∈ vs, inRange n v) :
    (∀ e ∈ arrayLike vs, 1 ≤ e.1) ∧ (∀ e ∈ arrayLike vs, inRange n e.2) := by
  refine ⟨arrayFrom_keys 1 vs, fun e he => hv e.2 ?_⟩
  have : e.2 ∈ (arrayLike vs).map Prod.snd := List.mem_map_of_mem _ he
  rwa [arrayLike, arrayFrom_values] at this

theorem toUnsigned_natCast (w x : Nat) (h : x < 2 ^ w) : toUnsigned w (x : Int) = x := by
  have := toUnsigned_of_range w (x : Int) (Int.ofNat_nonneg _) (by exact_mod_cast h)
  exact_mod_cast this

/-! ## Messages the loop cannot produce -/

theorem whileLoop_never (e : Int) (t : List (LuaValue × LuaValue)) (r : CallResult)
    (h : ∀ x ∈ t, ∀ c, loopBody e x.1 x.2 c ≠ .leave r) :
    ∀ c, whileLoop e t c ≠ .inl r := by
  induction t with
  | nil => intro c hc; simp [whileLoop] at hc
  | cons x rest ih =>
    obtain ⟨k, v⟩ := x
    intro c hc
    have hx := h (k, v) (List.mem_cons_self _ _) c
    simp only [whileLoop] at hc
    cases hb : loopBody e k v c with
    | leave r1 =>
      rw [hb] at hc
      simp only [Sum.inl.injEq] at hc
      exact hx (by rw [hb, hc])
    | next c1 =>
      rw [hb] at hc
      exact ih (fun y hy => h y (List.mem_cons_of_mem _ hy)) c1 hc

theorem range8_check_dead (v : Int) (hv : isLuaInteger v) :
    ¬ (v < INT64_MIN ∨ (toUnsigned 64 v : Int) > UINT64_MAX) := by
  have hlt := toUnsigned_lt 64 v
  obtain ⟨hlo, _⟩ := hv
  unfold INT64_MIN UINT64_MAX
  omega

theorem loopBody_nonInteger_value_cases (e : Int) (k v : LuaValue) (c : Nat)
    (h : isInteger v = false) :
    ∃ m ∈ [NonIntegerKey, NonPositiveKey, NonIntegerValue],
      loopBody e k v c = .leave (.returned none (some m)) := by
  by_cases hk : isInteger k = false
  · exact ⟨_, by simp, loopBody_nonInteger_key e k v c hk⟩
  · cases k <;> simp [isInteger] at hk
    rename_i i
    by_cases hi : i < 1
    · exact ⟨_, by simp, loopBody_nonPositive_key e i v c hi⟩
    · exact ⟨_, by simp, loopBody_nonInteger_value e i v c (by omega) h⟩

theorem loopBody_no_range8 (e : Int) (k v : LuaValue) (c : Nat)
    (hv : integerInRange v = true) :
    loopBody e k v c ≠ .leave (.returned none (some (ValueOutOfRange 8))) := by
  by_cases hint : isInteger v = false
  · obtain ⟨m, hm, hb⟩ := loopBody_nonInteger_value_cases e k v c hint
    rw [hb]
    intro heq
    have : m = ValueOutOfRange 8 := by simpa using heq
    rw [this] at hm
    exact absurd hm (by decide)
  · cases v <;> simp [isInteger] at hint
    rename_i w
    have hw : isLuaInteger w := by simpa [integerInRange] using hv
    have hdead := range8_check_dead w hw
    have h2 : (toInteger? (.integer w)).getD 0 = w := rfl
    unfold loopBody
    rw [h2]
    dsimp only
    split_ifs <;> simp [ValueOutOfRange]

theorem loopBody_no_impossible (e : Int) (k v : LuaValue) (c : Nat)
    (h : e = 1 ∨ e = 2 ∨ e = 4 ∨ e = 8) :
    loopBody e k v c ≠ .leave (.returned none (some ImpossibleElementSize)) := by
  unfold loopBody
  dsimp only
  split_ifs <;> first | (exfalso; omega) | simp [ImpossibleElementSize]

theorem doStuff_never (e : Int) (t : List (LuaValue × LuaValue)) (crc : Nat) (m : String)
    (hm : m ≠ "elemSize is not 1, 2, 4, or 8")
    (hloop : whileLoop e t crc ≠ .inl (.returned none (some m))) :
    doStuff [.integer e, .table t] crc ≠ .returned none (some m) := by
  intro hres
  rw [doStuff_table] at hres
  split at hres
  · simp only [CallResult.returned.injEq, Option.some.injEq, true_and] at hres
    exact hm hres.symm
  · cases hw : whileLoop e t crc with
    | inl r =>
      rw [hw] at hres
      simp only at hres
      exact hloop (by rw [hw, hres])
    | inr c1 =>
      rw [hw] at hres
      simp at hres

/-! ## Properties of the encoding -/

theorem littleEndian_length (n x : Nat) : (littleEndian n x).length = n := by
  induction n generalizing x with
  | zero => rfl
  | succ n ih => simp [littleEndian, ih]

theorem littleEndian_injective (n x y : Nat) (hx : x < 256 ^ n) (hy : y < 256 ^ n)
    (h : littleEndian n x = littleEndian n y) : x = y := by
  induction n generalizing x y with
  | zero =>
    simp at hx hy
    omega
  | succ n ih =>
    simp only [littleEndian, List.cons.injEq] at h
    obtain ⟨hmod, hrest⟩ := h
    have hx1 : x / 256 < 256 ^ n := by
      rw [Nat.div_lt_iff_lt_mul (by decide)]; rw [pow_succ] at hx; exact hx
    have hy1 : y / 256 < 256 ^ n := by
      rw [Nat.div_lt_iff_lt_mul (by decide)]; rw [pow_succ] at hy; exact hy
    have hdiv := ih (x / 256) (y / 256) hx1 hy1 hrest
    omega

theorem canonicalBytes_length (n : Nat) (v : Int) : (canonicalBytes n v).length = n := by
  rw [canonicalBytes, littleEndian_length]

theorem canonicalString_length (n : Nat) (t : List (Int × Int)) :
    (canonicalString n t).length = t.length * n := by
  induction t with
  | nil => simp [canonicalString]
  | cons e rest ih =>
    simp only [canonicalString, List.flatMap_cons, List.length_append, List.length_cons,
      canonicalBytes_length] at ih ⊢
    rw [ih]
    ring

theorem canonicalBytes_eq_iff (n : Nat) (v w : Int) (hn : 0 < n)
    (hv : inRange n v) (hw : inRange n w) :
    canonicalBytes n v = canonicalBytes n w ↔ v % 2 ^ (8 * n) = w % 2 ^ (8 * n) := by
  have hpos : (0 : Int) < 2 ^ (8 * n) := by positivity
  have hpow : (256 : Nat) ^ n = 2 ^ (8 * n) := by
    rw [pow_mul]; norm_num
  have hnat : toUnsigned (8 * n) v = toUnsigned (8 * n) w
      ↔ v % 2 ^ (8 * n) = w % 2 ^ (8 * n) := by
    unfold toUnsigned
    have h1 := Int.emod_nonneg v (ne_of_gt hpos)
    have h2 := Int.emod_nonneg w (ne_of_gt hpos)
    constructor
    · intro h
      have := congrArg (fun x : Nat => (x : Int)) h
      simpa [Int.toNat_of_nonneg h1, Int.toNat_of_nonneg h2] using this
    · intro h
      rw [h]
  rw [← hnat, canonicalBytes, canonicalBytes,
    ← toUnsigned_eq_twosComplement n v hv hn, ← toUnsigned_eq_twosComplement n w hw hn]
  constructor
  · intro h
    exact littleEndian_injective n _ _ (hpow ▸ toUnsigned_lt (8 * n) v)
      (hpow ▸ toUnsigned_lt (8 * n) w) h
  · intro h
    rw [h]

/-! ## Composability and known vectors -/

/-- C1: for every prior checksum `c` in `[0, 2^32-1]` and all byte strings `a`, `b`,
`extend(a, c)` returns a checksum `r`, and `extend(b, r)` returns the very checksum that
`extend(concat(a, b), c)` returns. -/
theorem extend_composable (c : Int) (a b : List Nat) (h0 : 0 ≤ c) (h1 : c < 2 ^ 32) :
    ∃ r s : Int,
      luacrc32c_extend [.string a, .integer c] = .returned (some r) none ∧
      luacrc32c_extend [.string b, .integer r] = .returned (some s) none ∧
      luacrc32c_extend [.string (a ++ b), .integer c] = .returned (some s) none := by
  have hc : (toUnsigned 32 c : Int) = c := toUnsigned_of_range 32 c h0 h1
  have hcn : toUnsigned 32 c < 2 ^ 32 := toUnsigned_lt 32 c
  have hr : crc32c_extend (toUnsigned 32 c) a < 2 ^ 32 := crc32c_extend_lt _ a hcn
  have hback : toUnsigned 32 (crc32c_extend (toUnsigned 32 c) a : Int)
      = crc32c_extend (toUnsigned 32 c) a := by
    have := toUnsigned_of_range 32 (crc32c_extend (toUnsigned 32 c) a : Int)
      (Int.ofNat_nonneg _) (by exact_mod_cast hr)
    exact_mod_cast this
  refine ⟨(crc32c_extend (toUnsigned 32 c) a : Int),
    (crc32c_extend (toUnsigned 32 c) (a ++ b) : Int), extend_string a c, ?_, extend_string _ c⟩
  rw [extend_string, hback, crc32c_extend_append]

/-- Witness for C1: starting from checksum 0, the bytes 1,2,3 followed by 4,5. -/
theorem extend_composable_witness :
    ∃ r s : Int,
      luacrc32c_extend [.string [1, 2, 3], .integer 0] = .returned (some r) none ∧
      luacrc32c_extend [.string [4, 5], .integer r] = .returned (some s) none ∧
      luacrc32c_extend [.string ([1, 2, 3] ++ [4, 5]), .integer 0]
        = .returned (some s) none :=
  extend_composable 0 [1, 2, 3] [4, 5] (by decide) (by decide)

/-- C2: `value("")` returns checksum 0 and `value("123456789")` returns checksum
0xE3069283, the check value of bit-reflected CRC-32C, whose shifting constant is the
reflection of the Castagnoli polynomial 0x1EDC6F41. -/
theorem value_known_vectors :
    luacrc32c_value [.string (cString "")] = .returned (some 0) none ∧
    luacrc32c_value [.string (cString "123456789")] = .returned (some 0xE3069283) none ∧
    reflect32 castagnoliPoly = kPolyReflected := by
  refine ⟨?_, ?_, ?_⟩
  · rw [value_string]; decide
  · rw [value_string]
    set_option maxRecDepth 100000 in decide
  · set_option maxRecDepth 100000 in decide

/-! ## The structured-sequence path -/

/-- C3: for every element size `n` in {1,2,4,8} and every sequence with positive integer
keys and integer values in range for `n`, `value(n, sequence)` equals `value(byteString)`,
where `byteString` concatenates, in the order the entries are visited, each value's
`n`-byte two's-complement pattern written least-significant byte first. -/
theorem value_sequence_eq_value_canonical (n : Int) (t : List (Int × Int))
    (hn : n = 1 ∨ n = 2 ∨ n = 4 ∨ n = 8)
    (hk : ∀ e ∈ t, 1 ≤ e.1) (hv : ∀ e ∈ t, inRange n.toNat e.2) :
    luacrc32c_value [.integer n, .table (t.map intEntry)]
      = luacrc32c_value [.string (canonicalString n.toNat t)] := by
  rw [value_string, luacrc32c_value, doStuff_valid n t 0 hn hk hv]

/-- Witness for C3: `value(2, {1:0x0102, 2:0x0304})` is the value of the bytes
02 01 04 03. -/
theorem value_sequence_eq_value_canonical_witness :
    luacrc32c_value [.integer 2, .table [(.integer 1, .integer 0x0102),
        (.integer 2, .integer 0x0304)]]
      = luacrc32c_value [.string [0x02, 0x01, 0x04, 0x03]] :=
  value_sequence_eq_value_canonical 2 [(1, 0x0102), (2, 0x0304)]
    (by decide) (by decide) (by decide)

/-! ## Validation of values and of the element size -/

/-- C4: for every element size `n` in {1,2,4} and every integer `v` stored under a positive
integer key, `value(n, {v})` fails with the `ValueOutOfRange` error naming `n` if and only
if `v < -2^(8n-1)` or `v > 2^(8n)-1`, and otherwise returns a checksum. -/
theorem range_rejection (n k v : Int) (hn : n = 1 ∨ n = 2 ∨ n = 4) (hk : 1 ≤ k) :
    (luacrc32c_value [.integer n, .table [(.integer k, .integer v)]]
        = .returned none (some (ValueOutOfRange n))
      ↔ (v < -(2 : Int) ^ (8 * n.toNat - 1) ∨ v > 2 ^ (8 * n.toNat) - 1)) ∧
    (¬ (v < -(2 : Int) ^ (8 * n.toNat - 1) ∨ v > 2 ^ (8 * n.toNat) - 1) →
      ∃ r : Int, luacrc32c_value [.integer n, .table [(.integer k, .integer v)]]
        = .returned (some r) none) := by
  have hn8 : n = 1 ∨ n = 2 ∨ n = 4 ∨ n = 8 := by tauto
  have hin : ¬ (v < -(2 : Int) ^ (8 * n.toNat - 1) ∨ v > 2 ^ (8 * n.toNat) - 1)
      ↔ inRange n.toNat v := by
    unfold inRange; constructor <;> intro h <;> omega
  have hgood : inRange n.toNat v →
      luacrc32c_value [.integer n, .table [(.integer k, .integer v)]]
        = .returned (some (crc32c_extend 0 (canonicalString n.toNat [(k, v)]) : Int)) none := by
    intro h
    exact doStuff_valid n [(k, v)] 0 hn8 (by simpa using hk) (by simpa using h)
  refine ⟨⟨?_, ?_⟩, fun h => ⟨_, hgood (hin.mp h)⟩⟩
  · intro hres
    by_contra hnot
    rw [hgood (hin.mp hnot)] at hres
    simp at hres
  · intro hout
    have hv : ¬ inRange n.toNat v := fun h => (hin.mpr h) hout
    rw [value_table, doStuff_table, if_neg (elemSize_accepted n hn8)]
    simp [whileLoop, loopBody_out_of_range n k v 0 hn hk hv]

/-- Witness for C4: at size 1 the values 256 and -129 are rejected, 255 and -128 are
accepted. -/
theorem range_rejection_witness :
    luacrc32c_value [.integer 1, .table [(.integer 1, .integer 256)]]
      = .returned none (some "Table value exceeds selected 1 byte elemSize.") ∧
    luacrc32c_value [.integer 1, .table [(.integer 1, .integer (-129))]]
      = .returned none (some "Table value exceeds selected 1 byte elemSize.") ∧
    (∃ r : Int, luacrc32c_value [.integer 1, .table [(.integer 1, .integer 255)]]
      = .returned (some r) none) ∧
    (∃ r : Int, luacrc32c_value [.integer 1, .table [(.integer 1, .integer (-128))]]
      = .returned (some r) none) :=
  ⟨(range_rejection 1 1 256 (by decide) (by decide)).1.mpr (by decide),
   (range_rejection 1 1 (-129) (by decide) (by decide)).1.mpr (by decide),
   (range_rejection 1 1 255 (by decide) (by decide)).2 (by decide),
   (range_rejection 1 1 (-128) (by decide) (by decide)).2 (by decide)⟩

/-- C5: for every integer `elemSize` and every table, whatever its contents, both
`value(elemSize, table)` and `extend(elemSize, table, c)` fail with `InvalidElementSize`
if and only if `elemSize` is not one of 1, 2, 4, 8. -/
theorem elemSize_validation (e c : Int) (t : List (LuaValue × LuaValue))
    (he : isLuaInteger e) :
    (luacrc32c_value [.integer e, .table t] = .returned none (some InvalidElementSize)
      ↔ ¬ (e = 1 ∨ e = 2 ∨ e = 4 ∨ e = 8)) ∧
    (luacrc32c_extend [.integer e, .table t, .integer c]
        = .returned none (some InvalidElementSize)
      ↔ ¬ (e = 1 ∨ e = 2 ∨ e = 4 ∨ e = 8)) := by
  constructor
  · rw [value_table]
    exact doStuff_invalidElementSize_iff e t 0 he (by decide)
  · rw [extend_table]
    exact doStuff_invalidElementSize_iff e t _ he (toUnsigned_lt 32 c)

/-- Witness for C5: `value(3, {1: 5})` fails with `InvalidElementSize`, and so do the
sizes 0, -1 and 16. -/
theorem elemSize_validation_witness :
    luacrc32c_value [.integer 3, .table [(.integer 1, .integer 5)]]
      = .returned none (some "elemSize is not 1, 2, 4, or 8") ∧
    luacrc32c_value [.integer 0, .table [(.integer 1, .integer 5)]]
      = .returned none (some "elemSize is not 1, 2, 4, or 8") ∧
    luacrc32c_value [.integer (-1), .table [(.integer 1, .integer 5)]]
      = .returned none (some "elemSize is not 1, 2, 4, or 8") ∧
    luacrc32c_extend [.integer 16, .table [(.integer 1, .integer 5)], .integer 0]
      = .returned none (some "elemSize is not 1, 2, 4, or 8") :=
  ⟨(elemSize_validation 3 0 _ (by decide)).1.mpr (by decide),
   (elemSize_validation 0 0 _ (by decide)).1.mpr (by decide),
   (elemSize_validation (-1) 0 _ (by decide)).1.mpr (by decide),
   (elemSize_validation 16 0 _ (by decide)).2.mpr (by decide)⟩

/-! ## Validation of keys -/

/-- C6, as stated, fails: a table whose traversal visits the entry `0: 5` before an entry
with a string key contains a non-integer key and yet fails with `NonPositiveKey`; visited
the other way round it contains a non-positive key and fails with `NonIntegerKey`. -/
theorem key_validation_counterexample :
    luacrc32c_value [.integer 1,
        .table [(.integer 0, .integer 5), (.string (cString "x"), .integer 5)]]
      = .returned none (some NonPositiveKey) ∧
    luacrc32c_value [.integer 1,
        .table [(.integer 0, .integer 5), (.string (cString "x"), .integer 5)]]
      ≠ .returned none (some NonIntegerKey) ∧
    luacrc32c_value [.integer 1,
        .table [(.string (cString "x"), .integer 5), (.integer 0, .integer 5)]]
      = .returned none (some NonIntegerKey) ∧
    luacrc32c_value [.integer 1,
        .table [(.string (cString "x"), .integer 5), (.integer 0, .integer 5)]]
      ≠ .returned none (some NonPositiveKey) := by
  decide

/-- C6, amended: for every valid element size, a sequence in which the entries visited
before an entry are valid fails with `NonIntegerKey` when that entry's key is not an
integer and with `NonPositiveKey` when its key is an integer less than 1; and a sequence
containing such an entry anywhere returns no checksum but an error. -/
theorem key_validation (n : Int) (pre : List (Int × Int)) (k v : LuaValue)
    (post t : List (LuaValue × LuaValue))
    (hn : n = 1 ∨ n = 2 ∨ n = 4 ∨ n = 8)
    (hk : ∀ e ∈ pre, 1 ≤ e.1) (hv : ∀ e ∈ pre, inRange n.toNat e.2) :
    (isInteger k = false →
      luacrc32c_value [.integer n, .table (pre.map intEntry ++ (k, v) :: post)]
        = .returned none (some NonIntegerKey)) ∧
    (∀ i : Int, k = .integer i → i < 1 →
      luacrc32c_value [.integer n, .table (pre.map intEntry ++ (k, v) :: post)]
        = .returned none (some NonPositiveKey)) ∧
    ((∃ e ∈ t, isInteger e.1 = false ∨ ∃ i : Int, e.1 = .integer i ∧ i < 1) →
      ∃ msg, luacrc32c_value [.integer n, .table t] = .returned none (some msg)) := by
  refine ⟨?_, ?_, ?_⟩
  · intro hkey
    rw [value_table, doStuff_table, if_neg (elemSize_accepted n hn),
      whileLoop_after_valid n pre _ 0 hn hk hv]
    simp [whileLoop, loopBody_nonInteger_key n k v _ hkey]
  · intro i hki hi
    subst hki
    rw [value_table, doStuff_table, if_neg (elemSize_accepted n hn),
      whileLoop_after_valid n pre _ 0 hn hk hv]
    simp [whileLoop, loopBody_nonPositive_key n i v _ hi]
  · rintro ⟨e, he, hbad⟩
    have hleave : ∀ c, ∃ m, loopBody n e.1 e.2 c = .leave (.returned none (some m)) := by
      intro c
      rcases hbad with hkey | ⟨i, hki, hi⟩
      · exact ⟨_, loopBody_nonInteger_key n e.1 e.2 c hkey⟩
      · rw [hki]
        exact ⟨_, loopBody_nonPositive_key n i e.2 c hi⟩
    obtain ⟨m, hm⟩ := whileLoop_leaves n t 0 (by decide) ⟨e, he, hleave⟩
    exact ⟨m, by rw [value_table, doStuff_table, if_neg (elemSize_accepted n hn), hm]⟩

/-- Witness for C6: `value(1, {0: 5})` fails with `NonPositiveKey`. -/
theorem key_validation_witness :
    luacrc32c_value [.integer 1, .table [(.integer 0, .integer 5)]]
      = .returned none (some "Table key is not greater than zero.") :=
  (key_validation 1 [] (.integer 0) (.integer 5) [] [] (by decide) (by decide)
    (by decide)).2.1 0 rfl (by decide)

/-! ## Order of the encoded values -/

/-- C7, as stated, fails: when `lua_next` yields the entry at position 2 before the entry
at position 1, the checksum is not that of the encodings in ascending position order, and
it differs from the checksum of the same mapping traversed in ascending order. -/
theorem value_ascending_order_counterexample :
    luacrc32c_value [.integer 2, .table ([(2, 0x0304), (1, 0x0102)].map intEntry)]
      ≠ .returned
          (some (crc32c_extend 0 (canonicalString 2 (sortByKey [(2, 0x0304), (1, 0x0102)]))))
          none ∧
    luacrc32c_value [.integer 2, .table ([(2, 0x0304), (1, 0x0102)].map intEntry)]
      ≠ luacrc32c_value [.integer 2, .table ([(1, 0x0102), (2, 0x0304)].map intEntry)] := by
  set_option maxRecDepth 100000 in decide

/-- C7, amended: for every valid element size and every sequence with positive integer
keys and in-range integer values, the checksum returned is the CRC-32C of the values'
encodings concatenated in the order in which the traversal yields the entries; it is the
checksum of the encodings in ascending key order whenever the traversal yields the keys
in ascending order. -/
theorem value_traversal_order (n : Int) (t : List (Int × Int))
    (hn : n = 1 ∨ n = 2 ∨ n = 4 ∨ n = 8)
    (hk : ∀ e ∈ t, 1 ≤ e.1) (hv : ∀ e ∈ t, inRange n.toNat e.2) :
    luacrc32c_value [.integer n, .table (t.map intEntry)]
      = .returned (some (crc32c_extend 0 (canonicalString n.toNat t) : Int)) none ∧
    (t.Sorted (fun a b => a.1 < b.1) →
      luacrc32c_value [.integer n, .table (t.map intEntry)]
        = .returned (some (crc32c_extend 0 (canonicalString n.toNat (sortByKey t)) : Int))
            none) := by
  have hval := doStuff_valid n t 0 hn hk hv
  refine ⟨hval, fun hs => ?_⟩
  have hle : t.Sorted (fun a b => a.1 ≤ b.1) := hs.imp (fun h => le_of_lt h)
  rw [sortByKey, List.Sorted.insertionSort_eq hle]
  exact hval

/-- Witness for C7: positions 1 and 2 visited in ascending order at size 2. -/
theorem value_traversal_order_witness :
    luacrc32c_value [.integer 2, .table ([(1, 0x0102), (2, 0x0304)].map intEntry)]
      = .returned
          (some (crc32c_extend 0 (canonicalString 2 (sortByKey [(1, 0x0102), (2, 0x0304)]))))
          none :=
  (value_traversal_order 2 [(1, 0x0102), (2, 0x0304)] (by decide) (by decide)
    (by decide)).2 (by decide)

/-! ## The prior checksum -/

/-- C8, evaluated on the code: a prior checksum outside `[0, 2^32-1]` is not rejected.
`extend("", -1)` returns checksum 4294967295 and `extend("", 2^32)` returns checksum 0,
likewise for a table; and no integer prior checksum ever yields `ChecksumOutOfRange`. -/
theorem extend_prior_out_of_range_accepted :
    luacrc32c_extend [.string [], .integer (-1)] = .returned (some 4294967295) none ∧
    luacrc32c_extend [.string [], .integer (2 ^ 32)] = .returned (some 0) none ∧
    luacrc32c_extend [.integer 1, .table [], .integer (-1)]
      = .returned (some 4294967295) none ∧
    (∀ (c : Int) (s : List Nat),
      luacrc32c_extend [.string s, .integer c] ≠ .returned none (some ChecksumOutOfRange)) ∧
    (∀ (e c : Int) (t : List (LuaValue × LuaValue)),
      luacrc32c_extend [.integer e, .table t, .integer c]
        ≠ .returned none (some ChecksumOutOfRange)) := by
  refine ⟨by decide, by decide, by decide, ?_, ?_⟩
  · intro c s
    rw [extend_string]
    simp
  · intro e c t hres
    rw [extend_table] at hres
    rcases doStuff_table_shape e t _ (toUnsigned_lt 32 c) with ⟨c1, _, hd⟩ | ⟨m, hm, hd⟩
    · rw [hd] at hres
      simp at hres
    · rw [hd] at hres
      have hmem : ChecksumOutOfRange ∈ InvalidElementSize :: loopMessages := by
        have : m = ChecksumOutOfRange := by simpa using hres
        exact this ▸ hm
      exact absurd hmem (by decide)

/-! ## Shape of what is returned -/

/-- C9: on the recognised argument shapes the pair returned is either `(checksum, nil)`
with the checksum in `[0, 2^32-1]` or `(nil, message)`; the byte-string path always
returns `(checksum, nil)`. -/
theorem result_exclusive (s : List Nat) (e c : Int) (t : List (LuaValue × LuaValue)) :
    (∃ r : Int, 0 ≤ r ∧ r < 2 ^ 32 ∧
      luacrc32c_value [.string s] = .returned (some r) none) ∧
    (∃ r : Int, 0 ≤ r ∧ r < 2 ^ 32 ∧
      luacrc32c_extend [.string s, .integer c] = .returned (some r) none) ∧
    ((∃ r : Int, 0 ≤ r ∧ r < 2 ^ 32 ∧
        luacrc32c_value [.integer e, .table t] = .returned (some r) none) ∨
      (∃ msg : String, luacrc32c_value [.integer e, .table t] = .returned none (some msg))) ∧
    ((∃ r : Int, 0 ≤ r ∧ r < 2 ^ 32 ∧
        luacrc32c_extend [.integer e, .table t, .integer c] = .returned (some r) none) ∨
      (∃ msg : String,
        luacrc32c_extend [.integer e, .table t, .integer c] = .returned none (some msg))) := by
  have hc := toUnsigned_lt 32 c
  have key : ∀ crc : Nat, crc < 2 ^ 32 →
      ((∃ r : Int, 0 ≤ r ∧ r < 2 ^ 32 ∧
          doStuff [.integer e, .table t] crc = .returned (some r) none) ∨
        (∃ msg : String, doStuff [.integer e, .table t] crc = .returned none (some msg))) := by
    intro crc h
    rcases doStuff_table_shape e t crc h with ⟨c1, hc1, hd⟩ | ⟨m, _, hd⟩
    · exact Or.inl ⟨c1, Int.ofNat_nonneg _, by exact_mod_cast hc1, hd⟩
    · exact Or.inr ⟨m, hd⟩
  refine ⟨⟨_, Int.ofNat_nonneg _, ?_, value_string s⟩,
    ⟨_, Int.ofNat_nonneg _, ?_, extend_string s c⟩, ?_, ?_⟩
  · exact_mod_cast crc32c_extend_lt 0 s (by decide)
  · exact_mod_cast crc32c_extend_lt _ s hc
  · rw [value_table]
    exact key 0 (by decide)
  · rw [extend_table]
    exact key _ hc

/-! ## Order of the checks -/

/-- C10: for every valid element size, when the entries visited before an entry are all
valid and that entry is not, the operation returns exactly the error the specification's
ordered checks (key is integer, key is positive, value is integer, value in range) give
for that entry, and no checksum, whatever follows it. -/
theorem first_failure_wins (n c : Int) (pre post : List (LuaValue × LuaValue))
    (bad : LuaValue × LuaValue) (msg : String)
    (hn : n = 1 ∨ n = 2 ∨ n = 4 ∨ n = 8) (hwf : entryWellFormed bad)
    (hpre : ∀ x ∈ pre, entryError n x = none) (hbad : entryError n bad = some msg) :
    luacrc32c_value [.integer n, .table (pre ++ bad :: post)]
      = .returned none (some msg) ∧
    luacrc32c_extend [.integer n, .table (pre ++ bad :: post), .integer c]
      = .returned none (some msg) := by
  constructor
  · rw [value_table, doStuff_table, if_neg (elemSize_accepted n hn),
      whileLoop_first_failure n pre post bad msg 0 hn hwf hpre hbad]
  · rw [extend_table, doStuff_table, if_neg (elemSize_accepted n hn),
      whileLoop_first_failure n pre post bad msg _ hn hwf hpre hbad]

/-- Witness for C10: at size 1, after the valid entry `1: 5`, the entry `2: 300` is out of
range; the entry with a string key that follows is never reached. -/
theorem first_failure_wins_witness :
    luacrc32c_value [.integer 1, .table ([(.integer 1, .integer 5)]
        ++ (.integer 2, .integer 300) :: [(.string (cString "x"), .float none)])]
      = .returned none (some "Table value exceeds selected 1 byte elemSize.") :=
  (first_failure_wins 1 0 [(.integer 1, .integer 5)] [(.string (cString "x"), .float none)]
    (.integer 2, .integer 300) _ (by decide) (by decide) (by decide) (by decide)).1

/-! ## Chunks, and value as a special case of extend -/

/-- C11: for all valid element sizes `n1`, `n2` and array-like sequences `s1`, `s2` of
in-range values, `value(n1, s1)` returns a checksum `r`, and `extend(n2, s2, r)` equals
`value(byteString)` for the canonical encoding of `s1` at size `n1` followed by that of
`s2` at size `n2`; with `n1 = n2` it equals `value(n1, s1 followed by s2)`. -/
theorem chunked_sequences (n1 n2 : Int) (vs1 vs2 : List Int)
    (h1 : n1 = 1 ∨ n1 = 2 ∨ n1 = 4 ∨ n1 = 8) (h2 : n2 = 1 ∨ n2 = 2 ∨ n2 = 4 ∨ n2 = 8)
    (hv1 : ∀ v ∈ vs1, inRange n1.toNat v) (hv2 : ∀ v ∈ vs2, inRange n2.toNat v) :
    ∃ r : Int,
      luacrc32c_value [.integer n1, .table ((arrayLike vs1).map intEntry)]
        = .returned (some r) none ∧
      luacrc32c_extend [.integer n2, .table ((arrayLike vs2).map intEntry), .integer r]
        = luacrc32c_value [.string (canonicalString n1.toNat (arrayLike vs1)
            ++ canonicalString n2.toNat (arrayLike vs2))] ∧
      (n1 = n2 →
        luacrc32c_extend [.integer n2, .table ((arrayLike vs2).map intEntry), .integer r]
          = luacrc32c_value [.integer n1, .table ((arrayLike (vs1 ++ vs2)).map intEntry)]) := by
  obtain ⟨hk1, hr1⟩ := arrayLike_valid n1.toNat vs1 hv1
  obtain ⟨hk2, hr2⟩ := arrayLike_valid n2.toNat vs2 hv2
  have hlt := crc32c_extend_lt 0 (canonicalString n1.toNat (arrayLike vs1)) (by decide)
  have hext : luacrc32c_extend [.integer n2, .table ((arrayLike vs2).map intEntry),
        .integer (crc32c_extend 0 (canonicalString n1.toNat (arrayLike vs1)) : Int)]
      = .returned (some (crc32c_extend 0 (canonicalString n1.toNat (arrayLike vs1)
          ++ canonicalString n2.toNat (arrayLike vs2)) : Int)) none := by
    rw [extend_table, toUnsigned_natCast 32 _ hlt, doStuff_valid n2 _ _ h2 hk2 hr2,
      crc32c_extend_append]
  refine ⟨_, doStuff_valid n1 _ 0 h1 hk1 hr1, ?_, ?_⟩
  · rw [hext, value_string]
  · intro heq
    subst heq
    have hv12 : ∀ v ∈ vs1 ++ vs2, inRange n1.toNat v := by
      intro v hv
      rcases List.mem_append.mp hv with h | h
      · exact hv1 v h
      · exact hv2 v h
    obtain ⟨hk, hr⟩ := arrayLike_valid n1.toNat (vs1 ++ vs2) hv12
    rw [hext, value_table, doStuff_valid n1 _ 0 h1 hk hr]
    simp [canonicalString_arrayLike]

/-- Witness for C11: the value 0x0102 followed by the value 0x0304, both at size 2. -/
theorem chunked_sequences_witness :
    ∃ r : Int,
      luacrc32c_value [.integer 2, .table ((arrayLike [0x0102]).map intEntry)]
        = .returned (some r) none ∧
      luacrc32c_extend [.integer 2, .table ((arrayLike [0x0304]).map intEntry), .integer r]
        = luacrc32c_value [.string (canonicalString 2 (arrayLike [0x0102])
            ++ canonicalString 2 (arrayLike [0x0304]))] ∧
      ((2 : Int) = 2 →
        luacrc32c_extend [.integer 2, .table ((arrayLike [0x0304]).map intEntry), .integer r]
          = luacrc32c_value [.integer 2,
              .table ((arrayLike ([0x0102] ++ [0x0304])).map intEntry)]) :=
  chunked_sequences 2 2 [0x0102] [0x0304] (by decide) (by decide) (by decide) (by decide)

/-- C12: for every byte string `s`, `value(s) = extend(s, 0)`, and for every element size
(an integer, or a float) and every table `t`, `value(n, t) = extend(n, t, 0)`, error
results included. -/
theorem value_eq_extend_zero (s : List Nat) (n : Int) (f : Option Int)
    (t : List (LuaValue × LuaValue)) :
    luacrc32c_value [.string s] = luacrc32c_extend [.string s, .integer 0] ∧
    luacrc32c_value [.integer n, .table t]
      = luacrc32c_extend [.integer n, .table t, .integer 0] ∧
    luacrc32c_value [.float f, .table t]
      = luacrc32c_extend [.float f, .table t, .integer 0] := by
  have hz : toUnsigned 32 0 = 0 := by decide
  refine ⟨?_, ?_, ?_⟩
  · rw [value_string, extend_string, hz]
  · rw [value_table, extend_table, hz]
  · have hdead : ¬ ((toUnsigned 32 0 : Int) < 0 ∨ (toUnsigned 32 0 : Int) > UINT32_MAX) := by
      decide
    have hmax : ¬ UINT32_MAX < 0 := by decide
    simp [luacrc32c_value, luacrc32c_extend, getCrcFromStack, lua_gettop, lua_type, stackAt,
      lua_isinteger, isInteger, luaL_checkinteger, toInteger?, hdead, hz, hmax]

/-- C13: `value(2, {1:0x0102, 2:0x0304})` differs from `value(2, {1:0x0304, 2:0x0102})`:
the same two values encoded in the opposite order give a different checksum, whether both
tables are visited in ascending or both in descending position order. -/
theorem order_sensitivity :
    luacrc32c_value [.integer 2, .table [(.integer 1, .integer 0x0102),
        (.integer 2, .integer 0x0304)]]
      ≠ luacrc32c_value [.integer 2, .table [(.integer 1, .integer 0x0304),
        (.integer 2, .integer 0x0102)]] ∧
    luacrc32c_value [.integer 2, .table [(.integer 2, .integer 0x0304),
        (.integer 1, .integer 0x0102)]]
      ≠ luacrc32c_value [.integer 2, .table [(.integer 2, .integer 0x0102),
        (.integer 1, .integer 0x0304)]] ∧
    luacrc32c_value [.string [0x02, 0x01, 0x04, 0x03]]
      ≠ luacrc32c_value [.string [0x04, 0x03, 0x02, 0x01]] := by
  set_option maxRecDepth 100000 in decide

/-! ## Element size 8, and the prior checksum modulo 2^32 -/

/-- C14: for every 64-bit signed integer `v` under a positive integer key, the 8-byte range
test is false, `value(8, {v})` returns the checksum of the 8-byte two's-complement pattern
of `v`, least-significant byte first, and no table of Lua values makes `value` or `extend`
report the 8-byte `ValueOutOfRange`. -/
theorem size8_accepts_everything (k v : Int) (hk : 1 ≤ k) (hv : isLuaInteger v) :
    ¬ (v < INT64_MIN ∨ (toUnsigned 64 v : Int) > UINT64_MAX) ∧
    luacrc32c_value [.integer 8, .table [(.integer k, .integer v)]]
      = .returned (some (crc32c_extend 0 (canonicalBytes 8 v) : Int)) none ∧
    (∀ (e c : Int) (t : List (LuaValue × LuaValue)), (∀ x ∈ t, entryWellFormed x) →
      luacrc32c_value [.integer e, .table t]
        ≠ .returned none (some "Table value exceeds selected 8 byte elemSize.") ∧
      luacrc32c_extend [.integer e, .table t, .integer c]
        ≠ .returned none (some "Table value exceeds selected 8 byte elemSize.")) := by
  refine ⟨range8_check_dead v hv, ?_, ?_⟩
  · have hr : inRange (8 : Int).toNat v := by
      obtain ⟨hlo, hhi⟩ := hv
      change inRange 8 v
      unfold inRange
      norm_num
      constructor <;> omega
    have := doStuff_valid 8 [(k, v)] 0 (by decide) (by simpa using hk) (by simpa using hr)
    simpa [canonicalString] using this
  · intro e c t hwf
    have hloop : ∀ crc, whileLoop e t crc
        ≠ .inl (.returned none (some (ValueOutOfRange 8))) :=
      whileLoop_never e t _ (fun x hx crc => loopBody_no_range8 e x.1 x.2 crc (hwf x hx).2)
    have key : ∀ crc, doStuff [.integer e, .table t] crc
        ≠ .returned none (some (ValueOutOfRange 8)) := by
      intro crc hres
      rw [doStuff_table] at hres
      split at hres
      · simp [ValueOutOfRange] at hres
      · cases hw : whileLoop e t crc with
        | inl r =>
          rw [hw] at hres
          simp only at hres
          exact hloop crc (by rw [hw, hres])
        | inr c1 =>
          rw [hw] at hres
          simp at hres
    constructor
    · rw [value_table]; exact key 0
    · rw [extend_table]; exact key _

/-- Witness for C14: the smallest 64-bit integer under key 1. -/
theorem size8_accepts_everything_witness :
    luacrc32c_value [.integer 8, .table [(.integer 1, .integer (-9223372036854775808))]]
      = .returned (some (crc32c_extend 0 (canonicalBytes 8 (-9223372036854775808)) : Int))
          none :=
  (size8_accepts_everything 1 (-9223372036854775808) (by decide) (by decide)).2.1

/-- C15: for every integer `c`, `extend(input, c)` equals `extend(input, c mod 2^32)`, for
a byte string and for any element size with any table; and when the input is valid (a byte
string, or a valid element size with a valid sequence) the result is a checksum, not an
error. -/
theorem prior_checksum_reduced (c n : Int) (s : List Nat) (t : List (Int × Int))
    (u : List (LuaValue × LuaValue))
    (hn : n = 1 ∨ n = 2 ∨ n = 4 ∨ n = 8)
    (hk : ∀ e ∈ t, 1 ≤ e.1) (hv : ∀ e ∈ t, inRange n.toNat e.2) :
    luacrc32c_extend [.string s, .integer c]
      = luacrc32c_extend [.string s, .integer (c % 2 ^ 32)] ∧
    (∃ r : Int, luacrc32c_extend [.string s, .integer c] = .returned (some r) none) ∧
    luacrc32c_extend [.integer n, .table u, .integer c]
      = luacrc32c_extend [.integer n, .table u, .integer (c % 2 ^ 32)] ∧
    (∃ r : Int, luacrc32c_extend [.integer n, .table (t.map intEntry), .integer c]
      = .returned (some r) none) := by
  have hmod : toUnsigned 32 (c % 2 ^ 32) = toUnsigned 32 c := by
    unfold toUnsigned
    rw [Int.emod_emod_of_dvd c (dvd_refl _)]
  refine ⟨?_, ⟨_, extend_string s c⟩, ?_, ?_⟩
  · rw [extend_string, extend_string, hmod]
  · rw [extend_table, extend_table, hmod]
  · rw [extend_table]
    exact ⟨_, doStuff_valid n t _ hn hk hv⟩

/-- Witness for C15: the prior checksum `2^32 + 5` acts as the prior checksum 5. -/
theorem prior_checksum_reduced_witness :
    luacrc32c_extend [.string [1, 2, 3], .integer (2 ^ 32 + 5)]
      = luacrc32c_extend [.string [1, 2, 3], .integer ((2 ^ 32 + 5) % 2 ^ 32)] :=
  (prior_checksum_reduced (2 ^ 32 + 5) 1 [1, 2, 3] [(1, 7)] [] (by decide) (by decide)
    (by decide)).1

/-! ## Signed and unsigned spellings, empty input, keys -/

/-- C16: for every element size `n` in {1,2,4} and every `v` with `-2^(8n-1) <= v <= -1`,
replacing `v` by `v + 2^(8n)` anywhere in a valid sequence leaves the checksum unchanged;
and for two in-range values `a`, `b` the bytes the loop of `doStuff` folds in for each
(its encoding, which is also the byte string with the same `value`) are equal exactly when
`a` and `b` are congruent modulo `2^(8n)`. -/
theorem signed_unsigned_coincide (n k v : Int) (pre post : List (Int × Int))
    (hn : n = 1 ∨ n = 2 ∨ n = 4) (hk : 1 ≤ k)
    (hlo : -(2 : Int) ^ (8 * n.toNat - 1) ≤ v) (hhi : v ≤ -1)
    (hkeys : ∀ e ∈ pre ++ post, 1 ≤ e.1) (hvals : ∀ e ∈ pre ++ post, inRange n.toNat e.2) :
    (∃ r : Int,
      luacrc32c_value [.integer n, .table ((pre ++ (k, v) :: post).map intEntry)]
        = .returned (some r) none ∧
      luacrc32c_value [.integer n,
          .table ((pre ++ (k, v + 2 ^ (8 * n.toNat)) :: post).map intEntry)]
        = .returned (some r) none) ∧
    (∀ a b : Int, inRange n.toNat a → inRange n.toNat b →
      (∀ crc, loopBody n (.integer k) (.integer a) crc
        = .next (crc32c_extend crc (canonicalBytes n.toNat a))) ∧
      (∀ crc, loopBody n (.integer k) (.integer b) crc
        = .next (crc32c_extend crc (canonicalBytes n.toNat b))) ∧
      luacrc32c_value [.integer n, .table [(.integer k, .integer a)]]
        = luacrc32c_value [.string (canonicalBytes n.toNat a)] ∧
      luacrc32c_value [.integer n, .table [(.integer k, .integer b)]]
        = luacrc32c_value [.string (canonicalBytes n.toNat b)] ∧
      (canonicalBytes n.toNat a = canonicalBytes n.toNat b
        ↔ a % 2 ^ (8 * n.toNat) = b % 2 ^ (8 * n.toNat))) := by
  have hn8 : n = 1 ∨ n = 2 ∨ n = 4 ∨ n = 8 := by tauto
  have hpos : 0 < n.toNat := by
    rcases hn with h | h | h <;> subst h <;> decide
  have hM : (0 : Int) < 2 ^ (8 * n.toNat) := by positivity
  have hH : (0 : Int) < 2 ^ (8 * n.toNat - 1) := by positivity
  have hHM : (2 : Int) ^ (8 * n.toNat - 1) ≤ 2 ^ (8 * n.toNat) :=
    pow_le_pow_right₀ (by norm_num) (by omega)
  have hv1 : inRange n.toNat v := ⟨hlo, by omega⟩
  have hv2 : inRange n.toNat (v + 2 ^ (8 * n.toNat)) := ⟨by omega, by omega⟩
  have hbytes : canonicalBytes n.toNat (v + 2 ^ (8 * n.toNat)) = canonicalBytes n.toNat v := by
    rw [canonicalBytes_eq_iff n.toNat _ _ hpos hv2 hv1, Int.add_emod_self]
  have hvalid : ∀ w : Int, inRange n.toNat w →
      (∀ e ∈ pre ++ (k, w) :: post, 1 ≤ e.1) ∧
      (∀ e ∈ pre ++ (k, w) :: post, inRange n.toNat e.2) := by
    intro w hw
    constructor
    · intro e he
      rcases List.mem_append.mp he with h | h
      · exact hkeys e (List.mem_append_left _ h)
      · rcases List.mem_cons.mp h with h | h
        · subst h; exact hk
        · exact hkeys e (List.mem_append_right _ h)
    · intro e he
      rcases List.mem_append.mp he with h | h
      · exact hvals e (List.mem_append_left _ h)
      · rcases List.mem_cons.mp h with h | h
        · subst h; exact hw
        · exact hvals e (List.mem_append_right _ h)
  refine ⟨⟨_, doStuff_valid n _ 0 hn8 (hvalid v hv1).1 (hvalid v hv1).2, ?_⟩, ?_⟩
  · have := doStuff_valid n _ 0 hn8 (hvalid _ hv2).1 (hvalid _ hv2).2
    rw [luacrc32c_value, this]
    simp [canonicalString, hbytes]
  · intro a b ha hb
    have hone : ∀ w : Int, inRange n.toNat w →
        luacrc32c_value [.integer n, .table [(.integer k, .integer w)]]
          = luacrc32c_value [.string (canonicalBytes n.toNat w)] := by
      intro w hw
      have := doStuff_valid n [(k, w)] 0 hn8 (by simpa using hk) (by simpa using hw)
      rw [value_string]
      simpa [canonicalString] using this
    exact ⟨fun crc => loopBody_valid n k a crc hn8 hk ha,
      fun crc => loopBody_valid n k b crc hn8 hk hb, hone a ha, hone b hb,
      canonicalBytes_eq_iff n.toNat a b hpos ha hb⟩

/-- Witness for C16: `value(1, {1: -1})` and `value(1, {1: 255})` return the same
checksum. -/
theorem signed_unsigned_coincide_witness :
    ∃ r : Int,
      luacrc32c_value [.integer 1, .table [(.integer 1, .integer (-1))]]
        = .returned (some r) none ∧
      luacrc32c_value [.integer 1, .table [(.integer 1, .integer 255)]]
        = .returned (some r) none :=
  (signed_unsigned_coincide 1 1 (-1) [] [] (by decide) (by decide) (by decide) (by decide)
    (by decide) (by decide)).1

/-- C17: for every prior checksum `c` in `[0, 2^32-1]`, `extend("", c) = c`, and for every
element size `n` in {1,2,4,8}, `extend(n, {}, c) = c` and `value(n, {}) = 0`. -/
theorem empty_input_identity (c n : Int) (h0 : 0 ≤ c) (h1 : c < 2 ^ 32)
    (hn : n = 1 ∨ n = 2 ∨ n = 4 ∨ n = 8) :
    luacrc32c_extend [.string [], .integer c] = .returned (some c) none ∧
    luacrc32c_extend [.integer n, .table [], .integer c] = .returned (some c) none ∧
    luacrc32c_value [.integer n, .table []] = .returned (some 0) none := by
  have hc : (toUnsigned 32 c : Int) = c := toUnsigned_of_range 32 c h0 h1
  refine ⟨?_, ?_, ?_⟩
  · rw [extend_string, crc32c_extend_nil, hc]
  · rw [extend_table, doStuff_table, if_neg (elemSize_accepted n hn)]
    simp [whileLoop, hc]
  · rw [value_table, doStuff_table, if_neg (elemSize_accepted n hn)]
    simp [whileLoop]

/-- Witness for C17: the prior checksum 0xE3069283 and element size 4. -/
theorem empty_input_identity_witness :
    luacrc32c_extend [.string [], .integer 0xE3069283] = .returned (some 0xE3069283) none ∧
    luacrc32c_extend [.integer 4, .table [], .integer 0xE3069283]
      = .returned (some 0xE3069283) none ∧
    luacrc32c_value [.integer 4, .table []] = .returned (some 0) none :=
  empty_input_identity 0xE3069283 4 (by decide) (by decide) (by decide)

/-- C18: for every valid element size, two valid sequences whose traversals yield the same
values in the same order under different positive integer keys have equal checksums; the
checksum is that of the encodings of the values alone, and a sequence of `k` values folds
in exactly `k * elemSize` bytes. -/
theorem keys_carry_no_data (n : Int) (t1 t2 : List (Int × Int))
    (hn : n = 1 ∨ n = 2 ∨ n = 4 ∨ n = 8)
    (hk1 : ∀ e ∈ t1, 1 ≤ e.1) (hk2 : ∀ e ∈ t2, 1 ≤ e.1)
    (hv1 : ∀ e ∈ t1, inRange n.toNat e.2)
    (hsame : t1.map Prod.snd = t2.map Prod.snd) :
    luacrc32c_value [.integer n, .table (t1.map intEntry)]
      = luacrc32c_value [.integer n, .table (t2.map intEntry)] ∧
    luacrc32c_value [.integer n, .table (t1.map intEntry)]
      = .returned
          (some (crc32c_extend 0 ((t1.map Prod.snd).flatMap (canonicalBytes n.toNat)) : Int))
          none ∧
    ((t1.map Prod.snd).flatMap (canonicalBytes n.toNat)).length = t1.length * n.toNat := by
  have hv2 : ∀ e ∈ t2, inRange n.toNat e.2 := by
    intro e he
    have hmem : e.2 ∈ t1.map Prod.snd := hsame ▸ List.mem_map_of_mem _ he
    obtain ⟨x, hx, hxe⟩ := List.mem_map.mp hmem
    exact hxe ▸ hv1 x hx
  have e1 := doStuff_valid n t1 0 hn hk1 hv1
  have e2 := doStuff_valid n t2 0 hn hk2 hv2
  rw [canonicalString_values] at e1 e2
  refine ⟨?_, e1, ?_⟩
  · rw [luacrc32c_value, luacrc32c_value, e1, e2, hsame]
  · rw [← canonicalString_values, canonicalString_length]

/-- Witness for C18: the values 7, 9 under keys 1, 2 and under keys 5, 9. -/
theorem keys_carry_no_data_witness :
    luacrc32c_value [.integer 2, .table ([(1, 7), (2, 9)].map intEntry)]
      = luacrc32c_value [.integer 2, .table ([(5, 7), (9, 9)].map intEntry)] :=
  (keys_carry_no_data 2 [(1, 7), (2, 9)] [(5, 7), (9, 9)] (by decide) (by decide) (by decide)
    (by decide) (by decide)).1

/-! ## A prior checksum that is not an integer, and the last branch of the loop -/

/-- C19, evaluated on the code: when the prior checksum is a float, `getCrcFromStack`
pushes `nil` and its message and returns the number 2 as the checksum; `doStuff` then
finds four or five values on the stack and raises the wrong-signature error. No pair
`(nil, "CRC value is not an Integer.")` is returned. -/
theorem extend_float_prior_raises (s : List Nat) (f : Option Int) (e : Int)
    (t : List (LuaValue × LuaValue)) :
    getCrcFromStack [.string s, .float f] 2
      = ([.string s, .float f, .nil, .string (cString ChecksumNotInteger)], 2) ∧
    luacrc32c_extend [.string s, .float f]
      = .raised "Wrong signature - neither (elemSize, \x7bdataTable\x7d) nor (string)." ∧
    luacrc32c_extend [.integer e, .table t, .float f]
      = .raised "Wrong signature - neither (elemSize, \x7bdataTable\x7d) nor (string)." ∧
    luacrc32c_extend [.string s, .float f] ≠ .returned none (some ChecksumNotInteger) ∧
    luacrc32c_extend [.integer e, .table t, .float f]
      ≠ .returned none (some ChecksumNotInteger) := by
  have h1 : getCrcFromStack [.string s, .float f] 2
      = ([.string s, .float f, .nil, .string (cString ChecksumNotInteger)], 2) := by
    simp [getCrcFromStack, lua_isinteger, stackAt, isInteger, ChecksumNotInteger]
  have h2 : luacrc32c_extend [.string s, .float f]
      = .raised "Wrong signature - neither (elemSize, \x7bdataTable\x7d) nor (string)." := by
    simp [luacrc32c_extend, getCrcFromStack, lua_isinteger, stackAt, isInteger, lua_gettop,
      lua_type, doStuff]
  have h3 : luacrc32c_extend [.integer e, .table t, .float f]
      = .raised "Wrong signature - neither (elemSize, \x7bdataTable\x7d) nor (string)." := by
    simp [luacrc32c_extend, getCrcFromStack, lua_isinteger, stackAt, isInteger, lua_gettop,
      lua_type, doStuff]
  refine ⟨h1, h2, h3, ?_, ?_⟩
  · rw [h2]; simp
  · rw [h3]; simp

/-- C20: for every `elemSize` in the range of `lua_Integer` that passes the element-size
check, `elemSize` is 1, 2, 4 or 8 and the loop never returns the message "Impossible value
for elemSize."; so neither `value` nor `extend` ever returns it, for any table. -/
theorem fallback_branch_dead (e c : Int) (t : List (LuaValue × LuaValue))
    (he : isLuaInteger e) :
    (¬ (e ≤ 0 ∨ Int.land e (e - 1) ≠ 0 ∨ toUnsigned 64 e > 8) →
      (e = 1 ∨ e = 2 ∨ e = 4 ∨ e = 8) ∧
      ∀ crc, whileLoop e t crc ≠ .inl (.returned none (some "Impossible value for elemSize."))) ∧
    luacrc32c_value [.integer e, .table t]
      ≠ .returned none (some "Impossible value for elemSize.") ∧
    luacrc32c_extend [.integer e, .table t, .integer c]
      ≠ .returned none (some "Impossible value for elemSize.") := by
  have hloop : ¬ (e ≤ 0 ∨ Int.land e (e - 1) ≠ 0 ∨ toUnsigned 64 e > 8) →
      (e = 1 ∨ e = 2 ∨ e = 4 ∨ e = 8) ∧
      ∀ crc, whileLoop e t crc ≠ .inl (.returned none (some ImpossibleElementSize)) := by
    intro hacc
    have hsize : e = 1 ∨ e = 2 ∨ e = 4 ∨ e = 8 := by
      by_contra hnot
      exact hacc ((elemSize_rejected_iff e he).mpr hnot)
    exact ⟨hsize, whileLoop_never e t _
      (fun x _ crc => loopBody_no_impossible e x.1 x.2 crc hsize)⟩
  have key : ∀ crc, doStuff [.integer e, .table t] crc
      ≠ .returned none (some ImpossibleElementSize) := by
    intro crc
    by_cases hacc : e ≤ 0 ∨ Int.land e (e - 1) ≠ 0 ∨ toUnsigned 64 e > 8
    · rw [doStuff_table, if_pos hacc]
      simp [ImpossibleElementSize]
    · exact doStuff_never e t crc _ (by decide) ((hloop hacc).2 crc)
  refine ⟨hloop, ?_, ?_⟩
  · rw [value_table]; exact key 0
  · rw [extend_table]; exact key _

/-- Witness for C20: element size 4 passes the check; the table holds one entry. -/
theorem fallback_branch_dead_witness :
    luacrc32c_value [.integer 4, .table [(.integer 1, .integer 5)]]
      ≠ .returned none (some "Impossible value for elemSize.") :=
  (fallback_branch_dead 4 0 [(.integer 1, .integer 5)] (by decide)).2.1

end Luacrc32c
